import Mathlib

/-!
Verification of the backend health-check engine (package `healthcheck`,
file `healthcheck.go`): the liveness probe, the per-backend reconciliation
pass, the monitor loop and the registry reconfiguration sequence are
embedded shallowly and the specified properties are settled against them.

Server URLs are abstracted as strings; Go durations (`time.Duration`,
an int64 of nanoseconds) are embedded as `Int`; network I/O is embedded
as explicit oracles (a `get` function for the HTTP client, boolean health
and adapter-error oracles for the reconciliation pass).
-/

namespace Healthcheck

/-- A server URL, abstracted to its textual form. -/
abbrev URL := String

/-- Go `time.Duration` is an int64 count of nanoseconds. -/
abbrev Duration := Int

/-- `time.Second` in nanoseconds. -/
def second : Duration := 1000000000

/-- The public health check options (`Options` in `healthcheck.go`):
probe path `URL`, probe interval, and (separately embedded here as
explicit pass state) the load-balancer reference. -/
structure Options where
  URL : String
  Interval : Duration
deriving DecidableEq, Repr

/-- `BackendHealthCheck`: health-check configuration for one backend.
The Go struct embeds `Options` and adds the private `disabledURLs`
and `requestTimeout` fields. -/
structure BackendHealthCheck where
  options : Options
  disabledURLs : List URL
  requestTimeout : Duration
deriving DecidableEq, Repr

/-- `NewBackendHealthCheck`: instantiates a `BackendHealthCheck` from
options; `disabledURLs` starts at its zero value (empty) and
`requestTimeout` is set to `5 * time.Second`. -/
def NewBackendHealthCheck (options : Options) : BackendHealthCheck :=
  { options := options
    disabledURLs := []
    requestTimeout := 5 * second }

/-- An HTTP response, reduced to the field the probe inspects. -/
structure Response where
  statusCode : Nat
deriving DecidableEq, Repr

/-- `checkHealth(serverURL, backend)`: one GET to `serverURL + backend.URL`
with the backend's request timeout; healthy iff the request returned
without error and the status code is exactly 200. The HTTP client is the
oracle `get`, mapping a request URL and a timeout to `none` (transport /
timeout error) or `some` response. -/
def checkHealth (get : String → Duration → Option Response)
    (serverURL : URL) (backend : BackendHealthCheck) : Bool :=
  match get (serverURL ++ backend.options.URL) backend.requestTimeout with
  | none => false
  | some resp => resp.statusCode == 200

/-- C2: the probe is healthy iff the single GET to `serverURL + path`
succeeds with status exactly 200; and the verdict depends only on the
transport's answer to that one request (no retry, no other request). -/
theorem checkHealth_healthy_iff_status200_and_single_request
    (get : String → Duration → Option Response)
    (serverURL : URL) (backend : BackendHealthCheck) :
    (checkHealth get serverURL backend = true ↔
      ∃ resp, get (serverURL ++ backend.options.URL) backend.requestTimeout = some resp ∧
        resp.statusCode = 200) ∧
    (∀ get' : String → Duration → Option Response,
      get (serverURL ++ backend.options.URL) backend.requestTimeout =
        get' (serverURL ++ backend.options.URL) backend.requestTimeout →
      checkHealth get serverURL backend = checkHealth get' serverURL backend) := by
  constructor
  · unfold checkHealth
    cases hg : get (serverURL ++ backend.options.URL) backend.requestTimeout with
    | none => simp
    | some resp =>
      simp only [beq_iff_eq, Option.some.injEq]
      constructor
      · intro h; exact ⟨resp, rfl, h⟩
      · rintro ⟨r, rfl, h⟩; exact h
  · intro get' hagree
    unfold checkHealth
    rw [hagree]

/-- Witness for C2 at a concrete transport answering 200 on the probe URL. -/
theorem checkHealth_healthy_iff_status200_and_single_request_witness :
    (checkHealth (fun _ _ => some ⟨200⟩) "http://s1" (NewBackendHealthCheck ⟨"/health", second⟩) = true ↔
      ∃ resp, (fun (_ : String) (_ : Duration) => some (Response.mk 200)) ("http://s1" ++ (NewBackendHealthCheck ⟨"/health", second⟩).options.URL) (NewBackendHealthCheck ⟨"/health", second⟩).requestTimeout = some resp ∧
        resp.statusCode = 200) ∧
    (∀ get' : String → Duration → Option Response,
      (fun (_ : String) (_ : Duration) => some (Response.mk 200)) ("http://s1" ++ (NewBackendHealthCheck ⟨"/health", second⟩).options.URL) (NewBackendHealthCheck ⟨"/health", second⟩).requestTimeout =
        get' ("http://s1" ++ (NewBackendHealthCheck ⟨"/health", second⟩).options.URL) (NewBackendHealthCheck ⟨"/health", second⟩).requestTimeout →
      checkHealth (fun _ _ => some ⟨200⟩) "http://s1" (NewBackendHealthCheck ⟨"/health", second⟩) = checkHealth get' "http://s1" (NewBackendHealthCheck ⟨"/health", second⟩)) :=
  checkHealth_healthy_iff_status200_and_single_request
    (fun _ _ => some ⟨200⟩) "http://s1" (NewBackendHealthCheck ⟨"/health", second⟩)

/-- C9 counterexample: the request timeout is not configurable through the
configuration input. `Options` carries only the probe path and the
interval, and `NewBackendHealthCheck` pins `requestTimeout` to 5 s for
every input: two maximally different configurations yield the same
timeout, so no override can be supplied. -/
theorem requestTimeout_not_configurable :
    (NewBackendHealthCheck ⟨"/health", second⟩).requestTimeout =
      (NewBackendHealthCheck ⟨"/other", 42 * second⟩).requestTimeout ∧
    (NewBackendHealthCheck ⟨"/health", second⟩).requestTimeout = 5 * second := by
  constructor <;> rfl

/-- C9 amended: every backend's probe request timeout is exactly the
default 5 seconds; the configuration input (`Options`: probe path,
interval) offers no override. -/
theorem requestTimeout_always_five_seconds (options : Options) :
    (NewBackendHealthCheck options).requestTimeout = 5 * second := rfl

/-! ## Load-balancer adapter and the reconciliation pass -/

/-- Modelled from the spec: the Load-Balancer Adapter contract (§4.4) is
external to this package (`vulcand/oxy/roundrobin` behind the
`LoadBalancer` interface); `upsertServer` is idempotent — adding an
already-present server neither errors nor duplicates. The live list is
embedded as the adapter's state. -/
def upsertServer (l : List URL) (u : URL) : List URL :=
  if u ∈ l then l else l ++ [u]

/-- Modelled from the spec: `removeServer` of the Load-Balancer Adapter
contract (§4.4); idempotent — removing an absent server is a no-op. -/
def removeServer (l : List URL) (u : URL) : List URL :=
  l.filter (fun v => v ≠ u)

/-- Observable actions of one reconciliation pass: the `Servers()` read,
each probe, the debug/warning log lines, and the two mutating adapter
calls (recording the weight passed to upsert and the error value the
adapter returned, which the code discards). -/
inductive Event where
  | serversCall
  | probe (u : URL)
  | debugUpsert (u : URL)
  | upsertCall (u : URL) (weight : Nat) (errored : Bool)
  | warnStillFailing (u : URL)
  | warnFailed (u : URL)
  | removeCall (u : URL) (errored : Bool)
deriving DecidableEq, Repr

/-- The log lines among the pass events. -/
def isLogEvent : Event → Bool
  | Event.debugUpsert _ => true
  | Event.warnStillFailing _ => true
  | Event.warnFailed _ => true
  | _ => false

/-- The warning-level log lines among the pass events. -/
def isWarnEvent : Event → Bool
  | Event.warnStillFailing _ => true
  | Event.warnFailed _ => true
  | _ => false

/-- The log lines of an event trace. -/
def logsOf (evs : List Event) : List Event :=
  evs.filter isLogEvent

/-- First loop of `checkBackend`: sweep `disabledURLs`. Each URL is
probed; a healthy one is upserted into the live list with weight 1 (the
adapter's error `uerr u` is discarded), an unhealthy one is logged and
kept in the new disabled list. Returns the (live list, new disabled
list) pair and the emitted events. -/
def sweepDisabled (health uerr : URL → Bool) (live : List URL) :
    List URL → (List URL × List URL) × List Event
  | [] => ((live, []), [])
  | u :: rest =>
    if health u then
      let r := sweepDisabled health uerr (upsertServer live u) rest
      (r.1, Event.probe u :: Event.debugUpsert u ::
        Event.upsertCall u 1 (uerr u) :: r.2)
    else
      let r := sweepDisabled health uerr live rest
      ((r.1.1, u :: r.1.2), Event.probe u :: Event.warnStillFailing u :: r.2)

/-- Second loop of `checkBackend`: sweep the `enabledURLs` snapshot. Each
URL is probed; an unhealthy one is logged, removed from the live list
(the adapter's error `rerr u` is discarded) and appended to the
disabled list. -/
def sweepEnabled (health rerr : URL → Bool) (live disabled : List URL) :
    List URL → (List URL × List URL) × List Event
  | [] => ((live, disabled), [])
  | u :: rest =>
    if health u then
      let r := sweepEnabled health rerr live disabled rest
      (r.1, Event.probe u :: r.2)
    else
      let r := sweepEnabled health rerr (removeServer live u) (disabled ++ [u]) rest
      (r.1, Event.probe u :: Event.warnFailed u :: Event.removeCall u (rerr u) :: r.2)

/-- `checkBackend`: one reconciliation pass. Reads `LB.Servers()` once
into `enabledURLs`, sweeps the disabled list, installs the new disabled
list, then sweeps the `enabledURLs` snapshot. State is the pair
(live list of the adapter, `disabledURLs` of the backend). -/
def checkBackend (health uerr rerr : URL → Bool) (live disabled : List URL) :
    (List URL × List URL) × List Event :=
  let enabledURLs := live
  let s1 := sweepDisabled health uerr live disabled
  let s2 := sweepEnabled health rerr s1.1.1 s1.1.2 enabledURLs
  (s2.1, Event.serversCall :: (s1.2 ++ s2.2))

/-! ### Characterization lemmas for the two sweeps -/

theorem mem_upsertServer (l : List URL) (u x : URL) :
    x ∈ upsertServer l u ↔ x ∈ l ∨ x = u := by
  unfold upsertServer
  split
  · rename_i hu
    constructor
    · exact Or.inl
    · rintro (hx | rfl)
      · exact hx
      · exact hu
  · simp [List.mem_append]

theorem mem_removeServer (l : List URL) (u x : URL) :
    x ∈ removeServer l u ↔ x ∈ l ∧ x ≠ u := by
  unfold removeServer
  simp [List.mem_filter]

theorem sweepDisabled_snd_state (health uerr : URL → Bool) (live D : List URL) :
    (sweepDisabled health uerr live D).1.2 = D.filter (fun u => !(health u)) := by
  induction D generalizing live with
  | nil => rfl
  | cons u rest ih =>
    by_cases hu : health u = true
    · simp [sweepDisabled, hu, List.filter, ih]
    · simp only [Bool.not_eq_true] at hu
      simp [sweepDisabled, hu, List.filter, ih]

theorem sweepDisabled_mem_live (health uerr : URL → Bool) (live D : List URL) (x : URL) :
    x ∈ (sweepDisabled health uerr live D).1.1 ↔
      x ∈ live ∨ (x ∈ D ∧ health x = true) := by
  induction D generalizing live with
  | nil => simp [sweepDisabled]
  | cons u rest ih =>
    by_cases hu : health u = true
    · simp only [sweepDisabled, hu, if_pos]
      rw [ih]
      rw [mem_upsertServer]
      constructor
      · rintro ((hx | rfl) | hx)
        · exact Or.inl hx
        · exact Or.inr ⟨List.mem_cons_self _ _, hu⟩
        · exact Or.inr ⟨List.mem_cons_of_mem _ hx.1, hx.2⟩
      · rintro (hx | ⟨hx, hh⟩)
        · exact Or.inl (Or.inl hx)
        · rcases List.mem_cons.mp hx with rfl | hx
          · exact Or.inl (Or.inr rfl)
          · exact Or.inr ⟨hx, hh⟩
    · simp only [Bool.not_eq_true] at hu
      simp only [sweepDisabled, hu, Bool.false_eq_true, if_neg, not_false_iff]
      rw [ih]
      constructor
      · rintro (hx | ⟨hx, hh⟩)
        · exact Or.inl hx
        · exact Or.inr ⟨List.mem_cons_of_mem _ hx, hh⟩
      · rintro (hx | ⟨hx, hh⟩)
        · exact Or.inl hx
        · rcases List.mem_cons.mp hx with rfl | hx
          · rw [hu] at hh; exact absurd hh (by simp)
          · exact Or.inr ⟨hx, hh⟩

theorem sweepDisabled_probe_count (health uerr : URL → Bool) (live D : List URL) (x : URL) :
    ((sweepDisabled health uerr live D).2.count (Event.probe x)) = D.count x := by
  induction D generalizing live with
  | nil => rfl
  | cons u rest ih =>
    by_cases hu : health u = true
    · simp only [sweepDisabled, hu, if_pos]
      rw [List.count_cons, List.count_cons, List.count_cons, ih, List.count_cons]
      simp [Event.probe.injEq]
    · simp only [Bool.not_eq_true] at hu
      simp only [sweepDisabled, hu, Bool.false_eq_true, if_neg, not_false_iff]
      rw [List.count_cons, List.count_cons, ih, List.count_cons]
      simp [Event.probe.injEq]

theorem sweepDisabled_upsert_event (health uerr : URL → Bool) (live D : List URL)
    (u : URL) (hD : u ∈ D) (hh : health u = true) :
    Event.upsertCall u 1 (uerr u) ∈ (sweepDisabled health uerr live D).2 := by
  induction D generalizing live with
  | nil => cases hD
  | cons v rest ih =>
    rcases List.mem_cons.mp hD with rfl | hv
    · simp [sweepDisabled, hh]
    · by_cases hvh : health v = true
      · simp only [sweepDisabled, hvh, if_pos]
        exact List.mem_cons_of_mem _ (List.mem_cons_of_mem _
          (List.mem_cons_of_mem _ (ih _ hv)))
      · simp only [Bool.not_eq_true] at hvh
        simp only [sweepDisabled, hvh, Bool.false_eq_true, if_neg, not_false_iff]
        exact List.mem_cons_of_mem _ (List.mem_cons_of_mem _ (ih _ hv))

theorem sweepDisabled_no_serversCall (health uerr : URL → Bool) (live D : List URL) :
    Event.serversCall ∉ (sweepDisabled health uerr live D).2 := by
  induction D generalizing live with
  | nil => simp [sweepDisabled]
  | cons u rest ih =>
    by_cases hu : health u = true
    · simp only [sweepDisabled, hu, if_pos, List.mem_cons]
      rintro (h | h | h | h) <;> first | exact Event.noConfusion h | exact ih _ h
    · simp only [Bool.not_eq_true] at hu
      simp only [sweepDisabled, hu, Bool.false_eq_true, if_neg, not_false_iff,
        List.mem_cons]
      rintro (h | h | h) <;> first | exact Event.noConfusion h | exact ih _ h

theorem sweepEnabled_snd_state (health rerr : URL → Bool) (live d E : List URL) :
    (sweepEnabled health rerr live d E).1.2 = d ++ E.filter (fun u => !(health u)) := by
  induction E generalizing live d with
  | nil => simp [sweepEnabled]
  | cons u rest ih =>
    by_cases hu : health u = true
    · simp [sweepEnabled, hu, List.filter, ih]
    · simp only [Bool.not_eq_true] at hu
      simp [sweepEnabled, hu, List.filter, ih]

theorem sweepEnabled_mem_live (health rerr : URL → Bool) (live d E : List URL) (x : URL) :
    x ∈ (sweepEnabled health rerr live d E).1.1 ↔
      x ∈ live ∧ (x ∈ E → health x = true) := by
  induction E generalizing live d with
  | nil => simp [sweepEnabled]
  | cons u rest ih =>
    by_cases hu : health u = true
    · simp only [sweepEnabled, hu, if_pos]
      rw [ih]
      constructor
      · rintro ⟨hx, hrest⟩
        refine ⟨hx, fun hmem => ?_⟩
        rcases List.mem_cons.mp hmem with rfl | hmem
        · exact hu
        · exact hrest hmem
      · rintro ⟨hx, hall⟩
        exact ⟨hx, fun hmem => hall (List.mem_cons_of_mem _ hmem)⟩
    · simp only [Bool.not_eq_true] at hu
      simp only [sweepEnabled, hu, Bool.false_eq_true, if_neg, not_false_iff]
      rw [ih]
      rw [mem_removeServer]
      constructor
      · rintro ⟨⟨hx, hne⟩, hrest⟩
        refine ⟨hx, fun hmem => ?_⟩
        rcases List.mem_cons.mp hmem with rfl | hmem
        · exact absurd rfl hne
        · exact hrest hmem
      · rintro ⟨hx, hall⟩
        refine ⟨⟨hx, fun heq => ?_⟩, fun hmem => hall (List.mem_cons_of_mem _ hmem)⟩
        subst heq
        rw [hall (List.mem_cons_self _ _)] at hu
        exact Bool.noConfusion hu

theorem sweepEnabled_probe_count (health rerr : URL → Bool) (live d E : List URL) (x : URL) :
    ((sweepEnabled health rerr live d E).2.count (Event.probe x)) = E.count x := by
  induction E generalizing live d with
  | nil => rfl
  | cons u rest ih =>
    by_cases hu : health u = true
    · simp only [sweepEnabled, hu, if_pos]
      rw [List.count_cons, ih, List.count_cons]
      simp [Event.probe.injEq]
    · simp only [Bool.not_eq_true] at hu
      simp only [sweepEnabled, hu, Bool.false_eq_true, if_neg, not_false_iff]
      rw [List.count_cons, List.count_cons, List.count_cons, ih, List.count_cons]
      simp [Event.probe.injEq]

theorem sweepEnabled_no_serversCall (health rerr : URL → Bool) (live d E : List URL) :
    Event.serversCall ∉ (sweepEnabled health rerr live d E).2 := by
  induction E generalizing live d with
  | nil => simp [sweepEnabled]
  | cons u rest ih =>
    by_cases hu : health u = true
    · simp only [sweepEnabled, hu, if_pos, List.mem_cons]
      rintro (h | h) <;> first | exact Event.noConfusion h | exact ih _ _ h
    · simp only [Bool.not_eq_true] at hu
      simp only [sweepEnabled, hu, Bool.false_eq_true, if_neg, not_false_iff,
        List.mem_cons]
      rintro (h | h | h | h) <;> first | exact Event.noConfusion h | exact ih _ _ h

theorem sweepDisabled_fst_indep (health uerr uerr' : URL → Bool) (live D : List URL) :
    (sweepDisabled health uerr live D).1 = (sweepDisabled health uerr' live D).1 := by
  induction D generalizing live with
  | nil => rfl
  | cons u rest ih =>
    by_cases hu : health u = true
    · simp only [sweepDisabled, hu, if_pos]
      exact ih _
    · simp only [Bool.not_eq_true] at hu
      simp only [sweepDisabled, hu, Bool.false_eq_true, if_neg, not_false_iff]
      rw [ih live]

theorem sweepEnabled_fst_indep (health rerr rerr' : URL → Bool) (live d E : List URL) :
    (sweepEnabled health rerr live d E).1 = (sweepEnabled health rerr' live d E).1 := by
  induction E generalizing live d with
  | nil => rfl
  | cons u rest ih =>
    by_cases hu : health u = true
    · simp only [sweepEnabled, hu, if_pos]
      exact ih _ _
    · simp only [Bool.not_eq_true] at hu
      simp only [sweepEnabled, hu, Bool.false_eq_true, if_neg, not_false_iff]
      exact ih _ _

theorem sweepDisabled_logs_indep (health uerr uerr' : URL → Bool) (live live' D : List URL) :
    logsOf (sweepDisabled health uerr live D).2 =
      logsOf (sweepDisabled health uerr' live' D).2 := by
  induction D generalizing live live' with
  | nil => rfl
  | cons u rest ih =>
    by_cases hu : health u = true
    · simp only [sweepDisabled, hu, if_pos]
      simp only [logsOf, List.filter, isLogEvent]
      exact congrArg _ (ih _ _)
    · simp only [Bool.not_eq_true] at hu
      simp only [sweepDisabled, hu, Bool.false_eq_true, if_neg, not_false_iff]
      simp only [logsOf, List.filter, isLogEvent]
      exact congrArg _ (ih _ _)

theorem sweepEnabled_logs_indep (health rerr rerr' : URL → Bool)
    (live live' d d' E : List URL) :
    logsOf (sweepEnabled health rerr live d E).2 =
      logsOf (sweepEnabled health rerr' live' d' E).2 := by
  induction E generalizing live live' d d' with
  | nil => rfl
  | cons u rest ih =>
    by_cases hu : health u = true
    · simp only [sweepEnabled, hu, if_pos]
      simp only [logsOf, List.filter, isLogEvent]
      exact ih _ _ _ _
    · simp only [Bool.not_eq_true] at hu
      simp only [sweepEnabled, hu, Bool.false_eq_true, if_neg, not_false_iff]
      simp only [logsOf, List.filter, isLogEvent]
      exact congrArg _ (ih _ _ _ _)

/-! ### Checkbackend-level characterizations -/

theorem checkBackend_disabled_eq (health uerr rerr : URL → Bool) (live D : List URL) :
    (checkBackend health uerr rerr live D).1.2 =
      D.filter (fun u => !(health u)) ++ live.filter (fun u => !(health u)) := by
  unfold checkBackend
  rw [sweepEnabled_snd_state, sweepDisabled_snd_state]

theorem checkBackend_mem_live (health uerr rerr : URL → Bool) (live D : List URL)
    (x : URL) :
    x ∈ (checkBackend health uerr rerr live D).1.1 ↔
      (x ∈ live ∨ (x ∈ D ∧ health x = true)) ∧ (x ∈ live → health x = true) := by
  unfold checkBackend
  rw [sweepEnabled_mem_live, sweepDisabled_mem_live]

theorem checkBackend_probe_count (health uerr rerr : URL → Bool) (live D : List URL)
    (x : URL) :
    (checkBackend health uerr rerr live D).2.count (Event.probe x) =
      D.count x + live.count x := by
  unfold checkBackend
  rw [List.count_cons, List.count_append, sweepDisabled_probe_count,
    sweepEnabled_probe_count]
  simp

theorem checkBackend_events_cons (health uerr rerr : URL → Bool) (live D : List URL) :
    (checkBackend health uerr rerr live D).2 =
      Event.serversCall ::
        ((sweepDisabled health uerr live D).2 ++
          (sweepEnabled health rerr (sweepDisabled health uerr live D).1.1
            (sweepDisabled health uerr live D).1.2 live).2) := rfl

/-! ### Claim theorems about the reconciliation pass -/

/-- C1: in one `checkBackend` pass, every URL of the disabled set is
probed; a healthy one leaves the disabled set and is upserted into the
live list with weight 1; an unhealthy one stays in the disabled set,
which acquires no duplicates (given duplicate-free, disjoint inputs);
then every URL of the live list, as read fresh at the start of this
pass, is probed, and an unhealthy one leaves the live list and is
appended to the disabled set. -/
theorem checkBackend_reconciliation (health uerr rerr : URL → Bool)
    (live D : List URL) (u : URL) :
    (u ∈ D → Event.probe u ∈ (checkBackend health uerr rerr live D).2) ∧
    (u ∈ D → health u = true →
      u ∉ (checkBackend health uerr rerr live D).1.2 ∧
      u ∈ (checkBackend health uerr rerr live D).1.1 ∧
      Event.upsertCall u 1 (uerr u) ∈ (checkBackend health uerr rerr live D).2) ∧
    (u ∈ D → health u = false → u ∈ (checkBackend health uerr rerr live D).1.2) ∧
    (D.Nodup → live.Nodup → (∀ x, x ∈ D → x ∉ live) →
      (checkBackend health uerr rerr live D).1.2.Nodup) ∧
    (u ∈ live → Event.probe u ∈ (checkBackend health uerr rerr live D).2) ∧
    (u ∈ live → health u = false →
      u ∉ (checkBackend health uerr rerr live D).1.1 ∧
      u ∈ (checkBackend health uerr rerr live D).1.2) := by
  refine ⟨?_, ?_, ?_, ?_, ?_, ?_⟩
  · intro hD
    rw [← List.count_pos_iff, checkBackend_probe_count]
    have : 0 < D.count u := List.count_pos_iff.mpr hD
    omega
  · intro hD hh
    refine ⟨?_, ?_, ?_⟩
    · rw [checkBackend_disabled_eq]
      simp only [List.mem_append, List.mem_filter, Bool.not_eq_eq_eq_not,
        Bool.not_true, hh]
      simp
    · rw [checkBackend_mem_live]
      exact ⟨Or.inr ⟨hD, hh⟩, fun _ => hh⟩
    · rw [checkBackend_events_cons]
      exact List.mem_cons_of_mem _
        (List.mem_append_left _ (sweepDisabled_upsert_event health uerr live D u hD hh))
  · intro hD hh
    rw [checkBackend_disabled_eq]
    refine List.mem_append_left _ (List.mem_filter.mpr ⟨hD, ?_⟩)
    rw [hh]
    rfl
  · intro hnD hnL hdisj
    rw [checkBackend_disabled_eq]
    refine List.Nodup.append (hnD.filter _) (hnL.filter _) ?_
    intro a ha hb
    exact hdisj a (List.mem_of_mem_filter ha) (List.mem_of_mem_filter hb)
  · intro hL
    rw [← List.count_pos_iff, checkBackend_probe_count]
    have : 0 < live.count u := List.count_pos_iff.mpr hL
    omega
  · intro hL hh
    constructor
    · rw [checkBackend_mem_live]
      rintro ⟨-, himp⟩
      rw [himp hL] at hh
      exact Bool.noConfusion hh
    · rw [checkBackend_disabled_eq]
      refine List.mem_append_right _ (List.mem_filter.mpr ⟨hL, ?_⟩)
      rw [hh]
      rfl

/-- Witness for C1: a pass over live list `["s2"]` and disabled set
`["s1", "s3"]` with only `"s1"` healthy, evaluated concretely. -/
theorem checkBackend_reconciliation_witness :
    Event.probe "s1" ∈
      (checkBackend (fun u => u == "s1") (fun _ => false) (fun _ => false)
        ["s2"] ["s1", "s3"]).2 ∧
    ("s1" ∉ (checkBackend (fun u => u == "s1") (fun _ => false) (fun _ => false)
        ["s2"] ["s1", "s3"]).1.2 ∧
      "s1" ∈ (checkBackend (fun u => u == "s1") (fun _ => false) (fun _ => false)
        ["s2"] ["s1", "s3"]).1.1 ∧
      Event.upsertCall "s1" 1 false ∈
        (checkBackend (fun u => u == "s1") (fun _ => false) (fun _ => false)
          ["s2"] ["s1", "s3"]).2) ∧
    "s3" ∈ (checkBackend (fun u => u == "s1") (fun _ => false) (fun _ => false)
        ["s2"] ["s1", "s3"]).1.2 ∧
    (checkBackend (fun u => u == "s1") (fun _ => false) (fun _ => false)
        ["s2"] ["s1", "s3"]).1.2.Nodup ∧
    Event.probe "s2" ∈
      (checkBackend (fun u => u == "s1") (fun _ => false) (fun _ => false)
        ["s2"] ["s1", "s3"]).2 ∧
    ("s2" ∉ (checkBackend (fun u => u == "s1") (fun _ => false) (fun _ => false)
        ["s2"] ["s1", "s3"]).1.1 ∧
      "s2" ∈ (checkBackend (fun u => u == "s1") (fun _ => false) (fun _ => false)
        ["s2"] ["s1", "s3"]).1.2) :=
  ⟨(checkBackend_reconciliation (fun u => u == "s1") (fun _ => false) (fun _ => false)
      ["s2"] ["s1", "s3"] "s1").1 (by decide),
   (checkBackend_reconciliation (fun u => u == "s1") (fun _ => false) (fun _ => false)
      ["s2"] ["s1", "s3"] "s1").2.1 (by decide) (by decide),
   (checkBackend_reconciliation (fun u => u == "s1") (fun _ => false) (fun _ => false)
      ["s2"] ["s1", "s3"] "s3").2.2.1 (by decide) (by decide),
   (checkBackend_reconciliation (fun u => u == "s1") (fun _ => false) (fun _ => false)
      ["s2"] ["s1", "s3"] "s1").2.2.2.1 (by decide) (by decide) (by decide),
   (checkBackend_reconciliation (fun u => u == "s1") (fun _ => false) (fun _ => false)
      ["s2"] ["s1", "s3"] "s2").2.2.2.2.1 (by decide),
   (checkBackend_reconciliation (fun u => u == "s1") (fun _ => false) (fun _ => false)
      ["s2"] ["s1", "s3"] "s2").2.2.2.2.2 (by decide) (by decide)⟩

/-- C3: after a reconciliation pass, every URL known to the backend
(present beforehand in the live list or in the disabled set) belongs to
exactly one of the resulting live list and disabled set. -/
theorem checkBackend_partition (health uerr rerr : URL → Bool)
    (live D : List URL) (u : URL) (hu : u ∈ live ∨ u ∈ D) :
    (u ∈ (checkBackend health uerr rerr live D).1.1 ↔
      u ∉ (checkBackend health uerr rerr live D).1.2) := by
  rw [checkBackend_mem_live, checkBackend_disabled_eq]
  by_cases hh : health u = true
  · simp only [List.mem_append, List.mem_filter, hh, Bool.not_true,
      Bool.false_eq_true, and_false, and_true, or_false, false_or, or_self,
      not_false_iff, iff_true, implies_true]
    tauto
  · simp only [Bool.not_eq_true] at hh
    simp only [List.mem_append, List.mem_filter, hh, Bool.not_false,
      Bool.false_eq_true, and_false, and_true, or_false, false_or]
    tauto

/-- Witness for C3 at the same concrete pass: the unhealthy live server
`"s2"` ends up in exactly one of the two sets. -/
theorem checkBackend_partition_witness :
    ("s2" ∈ (checkBackend (fun u => u == "s1") (fun _ => false) (fun _ => false)
        ["s2"] ["s1", "s3"]).1.1 ↔
      "s2" ∉ (checkBackend (fun u => u == "s1") (fun _ => false) (fun _ => false)
        ["s2"] ["s1", "s3"]).1.2) :=
  checkBackend_partition (fun u => u == "s1") (fun _ => false) (fun _ => false)
    ["s2"] ["s1", "s3"] "s2" (Or.inl (by decide))

/-- C8: a URL that fails its probe during the disabled-set sweep of a
pass stays in the disabled set and is probed exactly once in the whole
pass — in particular it is not probed again during the live-list sweep
of the same pass. -/
theorem checkBackend_step1_failure_stays_disabled (health uerr rerr : URL → Bool)
    (live D : List URL) (u : URL) (hD : u ∈ D) (hh : health u = false)
    (hlive : u ∉ live) (hnd : D.Nodup) :
    u ∈ (checkBackend health uerr rerr live D).1.2 ∧
      (checkBackend health uerr rerr live D).2.count (Event.probe u) = 1 := by
  constructor
  · rw [checkBackend_disabled_eq]
    refine List.mem_append_left _ (List.mem_filter.mpr ⟨hD, ?_⟩)
    rw [hh]
    rfl
  · rw [checkBackend_probe_count, List.count_eq_one_of_mem hnd hD,
      List.count_eq_zero.mpr hlive]

/-- Witness for C8: the unhealthy disabled server `"s3"` stays disabled
and is probed exactly once in the concrete pass. -/
theorem checkBackend_step1_failure_stays_disabled_witness :
    "s3" ∈ (checkBackend (fun u => u == "s1") (fun _ => false) (fun _ => false)
        ["s2"] ["s1", "s3"]).1.2 ∧
      (checkBackend (fun u => u == "s1") (fun _ => false) (fun _ => false)
        ["s2"] ["s1", "s3"]).2.count (Event.probe "s3") = 1 :=
  checkBackend_step1_failure_stays_disabled (fun u => u == "s1") (fun _ => false)
    (fun _ => false) ["s2"] ["s1", "s3"] "s3" (by decide) (by decide) (by decide)
    (by decide)

/-- C10: `checkBackend` reads the adapter's live list exactly once per
pass, as its very first action; consequently a server upserted back
into the live list during the disabled-set sweep is not probed again
during the live-list sweep — it is probed exactly once in the pass. -/
theorem checkBackend_servers_read_once (health uerr rerr : URL → Bool)
    (live D : List URL) (u : URL) :
    ((checkBackend health uerr rerr live D).2.count Event.serversCall = 1 ∧
      (checkBackend health uerr rerr live D).2.head? = some Event.serversCall) ∧
    (u ∈ D → health u = true → u ∉ live → D.Nodup →
      u ∈ (checkBackend health uerr rerr live D).1.1 ∧
      (checkBackend health uerr rerr live D).2.count (Event.probe u) = 1) := by
  constructor
  · constructor
    · rw [checkBackend_events_cons, List.count_cons, List.count_append]
      rw [List.count_eq_zero.mpr (sweepDisabled_no_serversCall health uerr live D),
        List.count_eq_zero.mpr (sweepEnabled_no_serversCall health rerr _ _ live)]
      simp
    · rw [checkBackend_events_cons]
      rfl
  · intro hD hh hlive hnd
    constructor
    · rw [checkBackend_mem_live]
      exact ⟨Or.inr ⟨hD, hh⟩, fun _ => hh⟩
    · rw [checkBackend_probe_count, List.count_eq_one_of_mem hnd hD,
        List.count_eq_zero.mpr hlive]

/-- Witness for C10: in the concrete pass the `Servers()` read happens
exactly once and first, and the re-enabled server `"s1"` is probed
exactly once. -/
theorem checkBackend_servers_read_once_witness :
    (((checkBackend (fun u => u == "s1") (fun _ => false) (fun _ => false)
        ["s2"] ["s1", "s3"]).2.count Event.serversCall = 1 ∧
      (checkBackend (fun u => u == "s1") (fun _ => false) (fun _ => false)
        ["s2"] ["s1", "s3"]).2.head? = some Event.serversCall) ∧
      ("s1" ∈ (checkBackend (fun u => u == "s1") (fun _ => false) (fun _ => false)
        ["s2"] ["s1", "s3"]).1.1 ∧
      (checkBackend (fun u => u == "s1") (fun _ => false) (fun _ => false)
        ["s2"] ["s1", "s3"]).2.count (Event.probe "s1") = 1)) :=
  ⟨(checkBackend_servers_read_once (fun u => u == "s1") (fun _ => false)
      (fun _ => false) ["s2"] ["s1", "s3"] "s1").1,
   (checkBackend_servers_read_once (fun u => u == "s1") (fun _ => false)
      (fun _ => false) ["s2"] ["s1", "s3"] "s1").2 (by decide) (by decide)
      (by decide) (by decide)⟩

/-- C7 counterexample: an erroring `UpsertServer` call is not logged as a
warning. In a pass whose only work is re-enabling the healthy disabled
server `"s1"` while the adapter's upsert errors, the trace contains the
errored upsert call yet no warning-level log line at all, and the log
lines are identical to those of the same pass without the error. -/
theorem upsert_error_not_logged :
    Event.upsertCall "s1" 1 true ∈
      (checkBackend (fun _ => true) (fun _ => true) (fun _ => true) [] ["s1"]).2 ∧
    (checkBackend (fun _ => true) (fun _ => true) (fun _ => true)
      [] ["s1"]).2.filter isWarnEvent = [] ∧
    logsOf (checkBackend (fun _ => true) (fun _ => true) (fun _ => true) [] ["s1"]).2 =
      logsOf (checkBackend (fun _ => true) (fun _ => false) (fun _ => false)
        [] ["s1"]).2 := by
  refine ⟨?_, ?_, ?_⟩ <;> decide

/-- C7 amended: errors returned by `UpsertServer`/`RemoveServer` are
discarded entirely — the pass's resulting state and its log lines are
the same whatever the adapter's mutating calls return (so the state is
left as attempted, with no rollback and no error log), and the pass
still probes every known URL (the loop is not aborted). -/
theorem checkBackend_ignores_adapter_errors (health uerr uerr' rerr rerr' : URL → Bool)
    (live D : List URL) :
    (checkBackend health uerr rerr live D).1 =
      (checkBackend health uerr' rerr' live D).1 ∧
    logsOf (checkBackend health uerr rerr live D).2 =
      logsOf (checkBackend health uerr' rerr' live D).2 ∧
    (∀ u, u ∈ D ∨ u ∈ live →
      Event.probe u ∈ (checkBackend health uerr rerr live D).2) := by
  refine ⟨?_, ?_, ?_⟩
  · show (sweepEnabled health rerr _ _ live).1 = (sweepEnabled health rerr' _ _ live).1
    rw [sweepDisabled_fst_indep health uerr uerr' live D]
    exact sweepEnabled_fst_indep health rerr rerr' _ _ live
  · rw [checkBackend_events_cons, checkBackend_events_cons]
    show logsOf (Event.serversCall :: _) = logsOf (Event.serversCall :: _)
    simp only [logsOf, List.filter, isLogEvent, List.filter_append]
    rw [← logsOf, ← logsOf, ← logsOf, ← logsOf,
      sweepDisabled_logs_indep health uerr uerr' live live D,
      sweepEnabled_logs_indep health rerr rerr' _ _ _ _ live]
  · intro u hu
    rw [← List.count_pos_iff, checkBackend_probe_count]
    rcases hu with hD | hL
    · have : 0 < D.count u := List.count_pos_iff.mpr hD
      omega
    · have : 0 < live.count u := List.count_pos_iff.mpr hL
      omega

/-- Witness for C7 (amended) at the concrete pass. -/
theorem checkBackend_ignores_adapter_errors_witness :
    ((checkBackend (fun u => u == "s1") (fun _ => true) (fun _ => true)
        ["s2"] ["s1", "s3"]).1 =
      (checkBackend (fun u => u == "s1") (fun _ => false) (fun _ => false)
        ["s2"] ["s1", "s3"]).1 ∧
    logsOf (checkBackend (fun u => u == "s1") (fun _ => true) (fun _ => true)
        ["s2"] ["s1", "s3"]).2 =
      logsOf (checkBackend (fun u => u == "s1") (fun _ => false) (fun _ => false)
        ["s2"] ["s1", "s3"]).2) ∧
    Event.probe "s2" ∈ (checkBackend (fun u => u == "s1") (fun _ => true)
      (fun _ => true) ["s2"] ["s1", "s3"]).2 :=
  ⟨⟨(checkBackend_ignores_adapter_errors (fun u => u == "s1") (fun _ => true)
      (fun _ => false) (fun _ => true) (fun _ => false) ["s2"] ["s1", "s3"]).1,
    (checkBackend_ignores_adapter_errors (fun u => u == "s1") (fun _ => true)
      (fun _ => false) (fun _ => true) (fun _ => false) ["s2"] ["s1", "s3"]).2.1⟩,
   (checkBackend_ignores_adapter_errors (fun u => u == "s1") (fun _ => true)
      (fun _ => false) (fun _ => true) (fun _ => false) ["s2"] ["s1", "s3"]).2.2
      "s2" (Or.inr (by decide))⟩

/-! ## Monitor loop and registry lifecycle -/

/-- Wake sources a monitor's select loop can observe, in the order the
scheduler delivers them: a ticker tick or the generation's
cancellation. -/
inductive Signal where
  | tick
  | cancel
deriving DecidableEq, Repr

/-- Whether a signal is the cancellation signal. -/
def isCancel : Signal → Bool
  | Signal.cancel => true
  | Signal.tick => false

/-- Observable actions of one monitor goroutine. -/
inductive MonitorAction where
  | pass
  | stopTicker
  | exitLoop
  | tickerFail
deriving DecidableEq, Repr

/-- `time.NewTicker` requires a positive duration and fails (panics)
otherwise. -/
def newTicker (d : Duration) : Except String Duration :=
  if d ≤ 0 then Except.error "non-positive interval for NewTicker"
  else Except.ok d

/-- The select loop of the monitor goroutine in `execute`: observing the
cancellation runs the deferred `ticker.Stop()` and returns; a tick runs
one `checkBackend` pass and loops. -/
def monitorLoop : List Signal → List MonitorAction
  | [] => []
  | Signal.cancel :: _ => [MonitorAction.stopTicker, MonitorAction.exitLoop]
  | Signal.tick :: rest => MonitorAction.pass :: monitorLoop rest

/-- One monitor goroutine of `execute`: the initial reconciliation pass,
then ticker creation (which fails for a non-positive interval), then
the select loop over the delivered wake signals. -/
def monitorRun (interval : Duration) (sigs : List Signal) : List MonitorAction :=
  MonitorAction.pass ::
    (match newTicker interval with
     | Except.error _ => [MonitorAction.tickerFail]
     | Except.ok _ => monitorLoop sigs)

/-- Steps the registry performs during reconfiguration. -/
inductive RegistryEvent where
  | swapBackends
  | cancelPrevious
  | deriveContext
  | startMonitor (backendID : String)
deriving DecidableEq, Repr

/-- Whether a registry step starts a monitor goroutine. -/
def isStartMonitor : RegistryEvent → Bool
  | RegistryEvent.startMonitor _ => true
  | _ => false

/-- `execute`: starts one monitor goroutine per entry of the stored
backend map (embedded as an association list). -/
def execute (backends : List (String × BackendHealthCheck)) : List RegistryEvent :=
  backends.map (fun b => RegistryEvent.startMonitor b.1)

/-- `SetBackendsConfiguration`: stores the new backend set, cancels the
previous generation when one exists (`hadCancel` embeds
`hc.cancel != nil`), derives a fresh cancellable child context, and
runs `execute` over the new set. -/
def SetBackendsConfiguration (hadCancel : Bool)
    (backends : List (String × BackendHealthCheck)) : List RegistryEvent :=
  RegistryEvent.swapBackends ::
    ((if hadCancel then [RegistryEvent.cancelPrevious] else []) ++
      (RegistryEvent.deriveContext :: execute backends))

/-- The concatenated initial-pass events of the monitors started for a
configuration: each started monitor immediately runs `checkBackend` on
its backend, whose live list the adapter reports as `liveOf`. Only
these passes ever call `Servers()`. -/
def configInitialEvents (health uerr rerr : URL → Bool)
    (liveOf : String → List URL)
    (backends : List (String × BackendHealthCheck)) : List Event :=
  backends.foldl
    (fun acc b =>
      acc ++ (checkBackend health uerr rerr (liveOf b.1) b.2.disabledURLs).2)
    []

theorem filter_isStartMonitor_execute (backends : List (String × BackendHealthCheck)) :
    (execute backends).filter isStartMonitor = execute backends :=
  List.filter_eq_self.mpr (by
    intro a ha
    rcases List.mem_map.mp ha with ⟨b, -, rfl⟩
    rfl)

theorem monitorLoop_of_cancel_mem (sigs : List Signal)
    (h : Signal.cancel ∈ sigs) :
    monitorLoop sigs =
      (sigs.takeWhile (fun s => !isCancel s)).map (fun _ => MonitorAction.pass) ++
        [MonitorAction.stopTicker, MonitorAction.exitLoop] := by
  induction sigs with
  | nil => cases h
  | cons s rest ih =>
    cases s with
    | cancel => rfl
    | tick =>
      have hrest : Signal.cancel ∈ rest := by
        rcases List.mem_cons.mp h with hc | hc
        · exact Signal.noConfusion hc
        · exact hc
      simp only [monitorLoop, List.takeWhile, isCancel, Bool.not_false, List.map]
      rw [ih hrest]
      rfl

theorem monitorLoop_of_no_cancel (sigs : List Signal)
    (h : Signal.cancel ∉ sigs) :
    monitorLoop sigs = sigs.map (fun _ => MonitorAction.pass) := by
  induction sigs with
  | nil => rfl
  | cons s rest ih =>
    cases s with
    | cancel => exact absurd (List.mem_cons_self _ _) h
    | tick =>
      simp only [monitorLoop, List.map]
      rw [ih (fun hc => h (List.mem_cons_of_mem _ hc))]

/-! ### Claim theorems about the registry and the monitor loop -/

/-- C5: `SetBackendsConfiguration` first swaps the stored backend-set
reference, then signals the previous generation's cancellation exactly
when one exists, then derives the fresh child context and starts
exactly one monitor per entry of the new set, in order; an empty set
yields zero started monitors, and `Servers()` is never called for such
a configuration (its monitors' initial passes are empty). -/
theorem setBackendsConfiguration_sequence (hadCancel : Bool)
    (backends : List (String × BackendHealthCheck)) :
    SetBackendsConfiguration hadCancel backends =
      [RegistryEvent.swapBackends] ++
        (if hadCancel then [RegistryEvent.cancelPrevious] else []) ++
        [RegistryEvent.deriveContext] ++
        backends.map (fun b => RegistryEvent.startMonitor b.1) ∧
    (SetBackendsConfiguration hadCancel backends).filter isStartMonitor =
      backends.map (fun b => RegistryEvent.startMonitor b.1) ∧
    (backends = [] →
      (SetBackendsConfiguration hadCancel backends).filter isStartMonitor = [] ∧
      ∀ health uerr rerr liveOf,
        configInitialEvents health uerr rerr liveOf backends = [] ∧
        Event.serversCall ∉ configInitialEvents health uerr rerr liveOf backends) := by
  refine ⟨?_, ?_, ?_⟩
  · cases hadCancel <;> rfl
  · have hfilter := filter_isStartMonitor_execute backends
    cases hadCancel with
    | false =>
      simp only [SetBackendsConfiguration, Bool.false_eq_true, if_neg,
        not_false_iff, List.nil_append, List.filter]
      rw [show isStartMonitor RegistryEvent.swapBackends = false from rfl,
        show isStartMonitor RegistryEvent.deriveContext = false from rfl]
      exact hfilter
    | true =>
      simp only [SetBackendsConfiguration, if_pos, List.cons_append,
        List.nil_append, List.filter]
      rw [show isStartMonitor RegistryEvent.swapBackends = false from rfl,
        show isStartMonitor RegistryEvent.cancelPrevious = false from rfl,
        show isStartMonitor RegistryEvent.deriveContext = false from rfl]
      exact hfilter
  · rintro rfl
    refine ⟨?_, ?_⟩
    · cases hadCancel <;> rfl
    · intro health uerr rerr liveOf
      exact ⟨rfl, by simp [configInitialEvents]⟩

/-- Witness for C5 with the empty configuration (and a previous
generation present). -/
theorem setBackendsConfiguration_sequence_witness :
    (SetBackendsConfiguration true [] =
      [RegistryEvent.swapBackends] ++
        (if true then [RegistryEvent.cancelPrevious] else []) ++
        [RegistryEvent.deriveContext] ++
        ([] : List (String × BackendHealthCheck)).map
          (fun b => RegistryEvent.startMonitor b.1)) ∧
    (SetBackendsConfiguration true []).filter isStartMonitor = [] ∧
    configInitialEvents (fun _ => true) (fun _ => false) (fun _ => false)
      (fun _ => []) [] = [] ∧
    Event.serversCall ∉ configInitialEvents (fun _ => true) (fun _ => false)
      (fun _ => false) (fun _ => []) [] :=
  ⟨(setBackendsConfiguration_sequence true []).1,
   ((setBackendsConfiguration_sequence true []).2.2 rfl).1,
   (((setBackendsConfiguration_sequence true []).2.2 rfl).2 (fun _ => true)
     (fun _ => false) (fun _ => false) (fun _ => [])).1,
   (((setBackendsConfiguration_sequence true []).2.2 rfl).2 (fun _ => true)
     (fun _ => false) (fun _ => false) (fun _ => [])).2⟩

/-- C6: a monitor with a positive interval performs its initial pass
first, before consuming any wake signal (with an empty schedule the
initial pass is its only action); thereafter it performs exactly one
pass per tick delivered before the cancellation; once the cancellation
is observed it stops its ticker and exits, performing nothing further;
without a cancellation it never exits. -/
theorem monitorRun_immediate_pass_ticks_then_stop (interval : Duration)
    (sigs : List Signal) (hpos : 0 < interval) :
    (monitorRun interval sigs).head? = some MonitorAction.pass ∧
    monitorRun interval [] = [MonitorAction.pass] ∧
    (Signal.cancel ∈ sigs →
      monitorRun interval sigs =
        MonitorAction.pass ::
          ((sigs.takeWhile (fun s => !isCancel s)).map
              (fun _ => MonitorAction.pass) ++
            [MonitorAction.stopTicker, MonitorAction.exitLoop])) ∧
    (Signal.cancel ∉ sigs →
      monitorRun interval sigs =
        MonitorAction.pass :: sigs.map (fun _ => MonitorAction.pass)) := by
  have hok : newTicker interval = Except.ok interval := by
    unfold newTicker
    rw [if_neg (not_le.mpr hpos)]
  have hrun : ∀ s : List Signal,
      monitorRun interval s = MonitorAction.pass :: monitorLoop s := by
    intro s
    unfold monitorRun
    rw [hok]
  refine ⟨?_, ?_, ?_, ?_⟩
  · rw [hrun]
    rfl
  · rw [hrun]
    rfl
  · intro hc
    rw [hrun, monitorLoop_of_cancel_mem sigs hc]
  · intro hc
    rw [hrun, monitorLoop_of_no_cancel sigs hc]

/-- Witness for C6 on the schedule tick, tick, cancel, tick. -/
theorem monitorRun_immediate_pass_ticks_then_stop_witness :
    (monitorRun second [Signal.tick, Signal.tick, Signal.cancel, Signal.tick]).head? =
      some MonitorAction.pass ∧
    monitorRun second [] = [MonitorAction.pass] ∧
    monitorRun second [Signal.tick, Signal.tick, Signal.cancel, Signal.tick] =
      MonitorAction.pass ::
        (([Signal.tick, Signal.tick, Signal.cancel,
            Signal.tick].takeWhile (fun s => !isCancel s)).map
            (fun _ => MonitorAction.pass) ++
          [MonitorAction.stopTicker, MonitorAction.exitLoop]) ∧
    monitorRun second [Signal.tick] =
      MonitorAction.pass :: [Signal.tick].map (fun _ => MonitorAction.pass) :=
  ⟨(monitorRun_immediate_pass_ticks_then_stop second
      [Signal.tick, Signal.tick, Signal.cancel, Signal.tick] (by decide)).1,
   (monitorRun_immediate_pass_ticks_then_stop second
      [Signal.tick, Signal.tick, Signal.cancel, Signal.tick] (by decide)).2.1,
   (monitorRun_immediate_pass_ticks_then_stop second
      [Signal.tick, Signal.tick, Signal.cancel, Signal.tick] (by decide)).2.2.1
      (by decide),
   (monitorRun_immediate_pass_ticks_then_stop second
      [Signal.tick] (by decide)).2.2.2 (by decide)⟩

/-- C4 counterexample: a configuration holding a backend whose probe
interval is non-positive is not rejected at configuration-set time —
`SetBackendsConfiguration` starts a monitor for that backend anyway. -/
theorem invalid_interval_not_rejected :
    RegistryEvent.startMonitor "bad" ∈
      SetBackendsConfiguration false
        [("bad", NewBackendHealthCheck ⟨"/health", 0⟩)] ∧
    (NewBackendHealthCheck ⟨"/health", 0⟩).options.Interval ≤ 0 := by
  exact ⟨by decide, by decide⟩

/-- C4 amended: `SetBackendsConfiguration` performs no validation — a
monitor is started for every entry of the set whatever its interval —
and a monitor whose interval is non-positive runs its initial
reconciliation pass and then fails mid-loop at ticker creation, rather
than being rejected before start. -/
theorem invalid_interval_starts_monitor_then_fails (hadCancel : Bool)
    (backends : List (String × BackendHealthCheck)) (name : String)
    (b : BackendHealthCheck) (hmem : (name, b) ∈ backends) :
    RegistryEvent.startMonitor name ∈
      SetBackendsConfiguration hadCancel backends ∧
    (b.options.Interval ≤ 0 → ∀ sigs,
      monitorRun b.options.Interval sigs =
        [MonitorAction.pass, MonitorAction.tickerFail]) := by
  constructor
  · unfold SetBackendsConfiguration execute
    refine List.mem_cons_of_mem _
      (List.mem_append_right _ (List.mem_cons_of_mem _ ?_))
    exact List.mem_map.mpr ⟨(name, b), hmem, rfl⟩
  · intro hle sigs
    unfold monitorRun newTicker
    rw [if_pos hle]

/-- Witness for C4 (amended) on the concrete invalid backend. -/
theorem invalid_interval_starts_monitor_then_fails_witness :
    RegistryEvent.startMonitor "bad" ∈
      SetBackendsConfiguration false
        [("bad", NewBackendHealthCheck ⟨"/health", 0⟩)] ∧
    monitorRun (NewBackendHealthCheck ⟨"/health", 0⟩).options.Interval
        [Signal.tick] =
      [MonitorAction.pass, MonitorAction.tickerFail] :=
  ⟨(invalid_interval_starts_monitor_then_fails false
      [("bad", NewBackendHealthCheck ⟨"/health", 0⟩)] "bad"
      (NewBackendHealthCheck ⟨"/health", 0⟩) (by decide)).1,
   (invalid_interval_starts_monitor_then_fails false
      [("bad", NewBackendHealthCheck ⟨"/health", 0⟩)] "bad"
      (NewBackendHealthCheck ⟨"/health", 0⟩) (by decide)).2 (by decide)
      [Signal.tick]⟩

end Healthcheck
